import Mathlib

/-!
# SLAMStudy: curve fitting with g2o (Eg06_UseG2O) and pose-graph construction (Sphere04_CeresSO3)

A shallow embedding of the two drivers.

* C++ `double` is idealised as a field `α` with exact arithmetic (an ordered field where the
  code compares numbers); `exp`, `sqrt` and the random sampler are parameters of the
  definitions, so every definition stays executable (for instance over `ℚ`, which holds every
  finite machine number).
* Where a statement is about the special values of the machine numbers, the number type is
  `Double`, the values of IEEE 754 binary64 with its addition and its comparison `==`.
* Library calls are embedded by what they do to the state a driver builds: the g2o optimizer is
  the list of vertices and edges added to it; `ceres::Problem` is its residual blocks, parameter
  blocks and constant blocks, together with the fatal errors of the calls `main` makes; Eigen's
  `llt().matrixL()` is its in-place Cholesky loop followed by the lower-triangular view.
* A failed `CHECK` or a fatal error inside a library ends the program: the construction of
  the pose graph returns the problem as it stood, and the error if there was one.
-/

set_option autoImplicit false

namespace Eg06_UseG2O

/-! ## Data model of `src/Eg06_UseG2O/main.cpp` -/

/-- Eigen::Vector3d, three coefficients. -/
abbrev Vector3d (α : Type) := Fin 3 → α

/-- Class `CurveFittingVertex : BaseVertex<3, Eigen::Vector3d>`: the id and the estimate. -/
structure CurveFittingVertex (α : Type) where
  id : Int
  estimate : Vector3d α

/-- First template argument of `BaseVertex<3, Eigen::Vector3d>`: the dimension of the update
vector handed to `oplusImpl`. -/
def CurveFittingVertex.Dimension : Nat := 3

/-- Number of coefficients of the estimate type `Eigen::Vector3d`. -/
def CurveFittingVertex.EstimateSize : Nat := Fintype.card (Fin 3)

/-- Constructor `Eigen::Vector3d(update)`: the constructor from a raw `const double*` reads
`update[0], update[1], update[2]`. -/
def Vector3d.ofPtr {α : Type} (update : Nat → α) : Vector3d α :=
  fun i => update i.val

/-- Method `setToOriginImpl`: `_estimate << 0, 0, 0`. -/
def CurveFittingVertex.setToOriginImpl {α : Type} [Field α] (v : CurveFittingVertex α) :
    CurveFittingVertex α :=
  { v with estimate := ![0, 0, 0] }

/-- Method `oplusImpl`: `_estimate += Eigen::Vector3d(update)`, the componentwise sum in the
arithmetic of the number type. -/
def CurveFittingVertex.oplusImpl {α : Type} [Add α] (v : CurveFittingVertex α)
    (update : Nat → α) : CurveFittingVertex α :=
  { v with estimate := v.estimate + Vector3d.ofPtr update }

/-! ### The machine numbers

`Double` is the value set of IEEE 754 binary64, the C++ `double`: the not-a-number, the two
infinities, the two zeros, and the finite non-zero numbers, each given by its rational value. -/

/-- An IEEE 754 binary64 value.  In `finite value` the value is a non-zero rational that
binary64 represents. -/
inductive Double where
  | nan
  | inf (negative : Bool)
  | zero (negative : Bool)
  | finite (value : ℚ)
  deriving DecidableEq

/-- Rounding of an exact result to binary64, to nearest with ties to even (the default mode):
53 significant bits, least exponent `-1074`, overflow to infinity from `2^1024` on.  An exact
zero gives `+0`; a non-zero result that rounds to zero keeps its sign. -/
def Double.roundNearestEven (q : ℚ) : Double :=
  if q = 0 then Double.zero false
  else
    let a : ℚ := |q|
    let e : Int := max (Int.log 2 a - 52) (-1074)
    let scaled : ℚ := a / (2 : ℚ) ^ e
    let f : Int := ⌊scaled⌋
    let frac : ℚ := scaled - f
    let n : Int := if 1 / 2 < frac ∨ (frac = 1 / 2 ∧ f % 2 = 1) then f + 1 else f
    let r : ℚ := n * (2 : ℚ) ^ e
    if (2 : ℚ) ^ (1024 : Int) ≤ r then Double.inf (decide (q < 0))
    else if r = 0 then Double.zero (decide (q < 0))
    else Double.finite (if q < 0 then -r else r)

/-- The operator `+` of `double` (IEEE 754 addition): a NaN operand gives NaN; infinities of
opposite sign give NaN; the sum of two zeros is `-0` only when both are `-0`; a zero added to a
non-zero number gives that number unchanged (the exact sum is representable); otherwise the
exact sum is rounded. -/
def Double.add : Double → Double → Double
  | Double.nan, _ => Double.nan
  | _, Double.nan => Double.nan
  | Double.inf s, Double.inf t => if s = t then Double.inf s else Double.nan
  | Double.inf s, _ => Double.inf s
  | _, Double.inf t => Double.inf t
  | Double.zero s, Double.zero t => Double.zero (s && t)
  | Double.zero _, Double.finite b => Double.finite b
  | Double.finite a, Double.zero _ => Double.finite a
  | Double.finite a, Double.finite b => Double.roundNearestEven (a + b)

instance : Add Double := ⟨Double.add⟩

/-- The operator `==` of `double`: NaN equals nothing, itself included; the two zeros are
equal; otherwise the values are compared. -/
def Double.eq : Double → Double → Bool
  | Double.nan, _ => false
  | _, Double.nan => false
  | Double.inf s, Double.inf t => s == t
  | Double.zero _, Double.zero _ => true
  | Double.finite a, Double.finite b => decide (a = b)
  | _, _ => false

/-- Class `CurveFittingEdge : BaseUnaryEdge<1, double, CurveFittingVertex>`.
`vertices` holds the ids of the attached vertices (one slot: the edge is unary), `error` is the
`Matrix<double,1,1>` residual, `information` the `1×1` information matrix. -/
structure CurveFittingEdge (α : Type) where
  id : Int
  x_ : α
  measurement : α
  information : Matrix (Fin 1) (Fin 1) α
  vertices : Fin 1 → Int
  error : Fin 1 → α

/-- First template argument of `BaseUnaryEdge<1, double, CurveFittingVertex>`. -/
def CurveFittingEdge.Dimension : Nat := 1

/-- Constructor `CurveFittingEdge(const double& x)`: it stores `x_`.  The fields of the base
class get placeholder values here (invalid id `-1`, no vertex attached); `main` sets the id, the
vertex, the measurement and the information before the edge is used. -/
def CurveFittingEdge.new {α : Type} [Field α] (x : α) : CurveFittingEdge α :=
  { id := -1, x_ := x, measurement := 0, information := 1, vertices := fun _ => -1,
    error := fun _ => 0 }

/-- Method `computeError`: reads the estimate of `_vertices[0]` (looked up in the graph `vertexOf`) and
stores `_measurement - exp(abc(0,0) * x_ * x_ + abc(1,0) * x_ + abc(2,0))` in `_error(0,0)`. -/
def CurveFittingEdge.computeError {α : Type} [Field α] (exp : α → α)
    (vertexOf : Int → CurveFittingVertex α) (e : CurveFittingEdge α) : CurveFittingEdge α :=
  let v := vertexOf (e.vertices 0)
  let abc := v.estimate
  let r := e.measurement - exp (abc 0 * e.x_ * e.x_ + abc 1 * e.x_ + abc 2)
  { e with error := Function.update e.error 0 r }

/-- The part of `g2o::SparseOptimizer` that `main` drives: the vertices and edges added, the
verbosity flag, and the iteration budget last passed to `optimize`. -/
structure SparseOptimizer (α : Type) where
  vertices : List (CurveFittingVertex α)
  edges : List (CurveFittingEdge α)
  verbose : Bool
  iterations : Option Nat

/-- Data-generation loop of `main` (lines 61-66): for `i = 0 .. N-1` push `x = i / 100.0` and
`exp(a*x*x + b*x + c) + gaussRand(0, wSigma)`; `gaussRand i` is the `i`-th draw of the sampler. -/
def generateData {α : Type} [Field α] (exp : α → α) (gaussRand : Nat → α → α → α)
    (a b c wSigma : α) (N : Nat) : List α × List α :=
  (List.range N).foldl
    (fun (d : List α × List α) (i : Nat) =>
      let x : α := (i : α) / 100
      (d.1 ++ [x], d.2 ++ [exp (a * x * x + b * x + c) + gaussRand i 0 wSigma]))
    ([], [])

/-- Edge loop of `main` (lines 86-94). -/
def addEdges {α : Type} [Field α] (xData yData : List α) (wSigma : α) (vId : Int) (N : Nat)
    (opt : SparseOptimizer α) : SparseOptimizer α :=
  (List.range N).foldl
    (fun (o : SparseOptimizer α) (i : Nat) =>
      let edge : CurveFittingEdge α := CurveFittingEdge.new (xData.getD i 0)
      let edge : CurveFittingEdge α := { edge with id := (i : Int) }
      let edge : CurveFittingEdge α :=
        { edge with vertices := Function.update edge.vertices 0 vId }
      let edge : CurveFittingEdge α := { edge with measurement := yData.getD i 0 }
      let edge : CurveFittingEdge α := { edge with
        information := fun r s => (1 : Matrix (Fin 1) (Fin 1) α) r s * 1 / (wSigma * wSigma) }
      { o with edges := o.edges ++ [edge] })
    opt

/-- The driver `main`: returns the generated data and the optimizer as it stands when
`optimizer.optimize(100)` is called. -/
def main {α : Type} [Field α] (exp : α → α) (gaussRand : Nat → α → α → α) :
    (List α × List α) × SparseOptimizer α :=
  let a : α := 1
  let b : α := 2
  let c : α := 1
  let wSigma : α := 1
  let N : Nat := 100
  let data := generateData exp gaussRand a b c wSigma N
  let optimizer : SparseOptimizer α :=
    { vertices := [], edges := [], verbose := false, iterations := none }
  let optimizer : SparseOptimizer α := { optimizer with verbose := true }
  let v : CurveFittingVertex α := { id := -1, estimate := 0 }
  let v : CurveFittingVertex α := { v with estimate := ![0, 0, 0] }
  let v : CurveFittingVertex α := { v with id := 0 }
  let optimizer : SparseOptimizer α :=
    { optimizer with vertices := optimizer.vertices ++ [v] }
  let optimizer : SparseOptimizer α := addEdges data.1 data.2 wSigma v.id N optimizer
  (data, { optimizer with iterations := some 100 })

/-! ### Concrete inputs for the closed statements -/

/-- The vertex with estimate `(1.5, -0.0, +∞)`. -/
def mixedVertex : CurveFittingVertex Double :=
  { id := 0, estimate := ![Double.finite (3 / 2), Double.zero true, Double.inf false] }

/-- The vertex with estimate `(NaN, +0.0, +0.0)`. -/
def nanVertex : CurveFittingVertex Double :=
  { id := 0, estimate := ![Double.nan, Double.zero false, Double.zero false] }

/-- The vertex with estimate `(-0.0, +0.0, +0.0)`. -/
def negativeZeroVertex : CurveFittingVertex Double :=
  { id := 0, estimate := ![Double.zero true, Double.zero false, Double.zero false] }

end Eg06_UseG2O

namespace Sphere04_CeresSO3

/-! ## Data model of `src/Sphere/Sphere04_CeresSO3/main.cpp` -/

/-- Eigen::Matrix<double, 6, 6>. -/
abbrev Matrix6d (α : Type) := Matrix (Fin 6) (Fin 6) α

/-- Modelled from the spec: `SO3Parameterization.h` / `types.h` are not among the sources.  A
rotation is stored as a quaternion whose coefficients `savePose` reads through
`R.params().x()`, `.y()`, `.z()`, `.w()`. -/
structure SO3 (α : Type) where
  x : α
  y : α
  z : α
  w : α

/-- Modelled from the spec: `types.h` is not among the sources.  A pose is a rotation `R` and a
position `p` (three components). -/
structure Pose (α : Type) where
  R : SO3 α
  p : Fin 3 → α

/-- Modelled from the spec: `types.h` is not among the sources.  A constraint names a begin id,
an end id, the measured relative transform `t_be` and a `6×6` information matrix. -/
structure Constraint (α : Type) where
  idBegin : Int
  idEnd : Int
  t_be : Pose α
  information : Matrix6d α

/-- Modelled from the spec: `types.h` is not among the sources.  `MapOfPoses` is a `std::map`
from the integer pose id to the pose: its entries are kept in strictly ascending id order. -/
structure MapOfPoses (α : Type) where
  entries : List (Int × Pose α)
  sorted : (entries.map Prod.fst).Pairwise (fun a b => a < b)

/-- The ids that are keys of the map, in iteration order. -/
def MapOfPoses.keys {α : Type} (poses : MapOfPoses α) : List Int :=
  poses.entries.map Prod.fst

/-- Method `std::map::find`: the entry with the key, `none` standing for `end()`. -/
def MapOfPoses.find {α : Type} (poses : MapOfPoses α) (id : Int) : Option (Int × Pose α) :=
  poses.entries.find? (fun e => e.1 == id)

/-- Method `std::map::begin`: the first entry, `none` standing for `end()`. -/
def MapOfPoses.begin {α : Type} (poses : MapOfPoses α) : Option (Int × Pose α) :=
  poses.entries.head?

/-! ### Eigen: `information.llt().matrixL()` -/

/-- One round `k` of Eigen's unblocked in-place Cholesky factorisation
(`llt_inplace<Scalar, Lower>::unblocked`, used for sizes below 32):
`x = mat(k,k) - A10.squaredNorm()`; `if (x <= 0) return k`; `mat(k,k) = x = sqrt(x)`;
`A21 -= A20 * A10.adjoint()`; `A21 /= x`, where `A10` is row `k` left of the diagonal, `A20` the
rows below it and `A21` the part of column `k` below the diagonal.  `none` is the early return. -/
def lltStep {α : Type} [LinearOrderedField α] {n : Nat} (sqrt : α → α)
    (mat : Matrix (Fin n) (Fin n) α) (k : Fin n) : Option (Matrix (Fin n) (Fin n) α) :=
  let x := mat k k - ∑ j in Finset.Iio k, mat k j * mat k j
  if x ≤ 0 then none
  else
    let d := sqrt x
    some (fun i j =>
      if j = k then
        if i = k then d
        else if k < i then
          (mat i k - ∑ l in Finset.Iio k, mat i l * mat k l) / d
        else mat i j
      else mat i j)

/-- The loop `for (Index k = 0; k < size; ++k)` of `unblocked`, from round `k` on, with `fuel`
rounds left to run: the matrix as left in place, and the return value (`-1` on success, else the
round in which the pivot was not positive). -/
def unblockedFrom {α : Type} [LinearOrderedField α] {n : Nat} (sqrt : α → α) :
    Nat → Nat → Matrix (Fin n) (Fin n) α → Matrix (Fin n) (Fin n) α × Int
  | 0, _, mat => (mat, -1)
  | fuel + 1, k, mat =>
    if h : k < n then
      match lltStep sqrt mat ⟨k, h⟩ with
      | none => (mat, (k : Int))
      | some mat2 => unblockedFrom sqrt fuel (k + 1) mat2
    else (mat, -1)

/-- Call `a.llt()`: the factorisation runs in place on a copy of `a`. -/
def llt {α : Type} [LinearOrderedField α] {n : Nat} (sqrt : α → α)
    (a : Matrix (Fin n) (Fin n) α) : Matrix (Fin n) (Fin n) α × Int :=
  unblockedFrom sqrt n 0 a

/-- Call `matrixL()` assigned to a dense matrix: the lower triangle of the factorised storage, zero
above the diagonal. -/
def matrixL {α : Type} [LinearOrderedField α] {n : Nat} (mat : Matrix (Fin n) (Fin n) α) :
    Matrix (Fin n) (Fin n) α :=
  fun i j => if j ≤ i then mat i j else 0

/-- Line 60 of `main`: `sqrtInformation = c.information.llt().matrixL()`. -/
def sqrtInformation {α : Type} [LinearOrderedField α] (sqrt : α → α)
    (information : Matrix6d α) : Matrix6d α :=
  matrixL (llt sqrt information).1

/-- Modelled from the spec: `PoseGraph3DErrorTerm.h` is not among the sources.  The cost
function returned by `PoseGraph3DErrorTerm::create(t_be, sqrtInformation)` keeps its two
arguments. -/
structure PoseGraph3DErrorTerm (α : Type) where
  t_be : Pose α
  sqrtInformation : Matrix6d α

/-- Modelled from the spec: `PoseGraph3DErrorTerm::create`, kept outside the sources. -/
def PoseGraph3DErrorTerm.create {α : Type} (t_be : Pose α) (sqrtInformation : Matrix6d α) :
    PoseGraph3DErrorTerm α :=
  { t_be := t_be, sqrtInformation := sqrtInformation }

/-- The ways the construction in `main` aborts: a failed `CHECK` of `main` (`poseNotFound`,
`noPoses`) or a fatal error raised inside `ceres::Problem`. -/
inductive Fatal where
  | poseNotFound (id : Int)
  | noPoses
  | duplicateParameterBlocks (id : Int)
  | parameterBlockNotFound (id : Int)
  deriving DecidableEq, Repr

/-- A residual block of the ceres problem: the cost function, the loss function (`none` is
`nullptr`) and the parameter blocks it is attached to.  A parameter block is the storage
`pose.data()` of one entry of the pose map; it is identified by that entry's id. -/
structure ResidualBlock (α : Type) where
  costFunction : PoseGraph3DErrorTerm α
  lossFunction : Option Unit
  parameterBlocks : List Int

/-- The state of `ceres::Problem` that `main` builds: the residual blocks in the order added,
the parameter blocks known to the problem, those given a local parameterization, and those
held constant. -/
structure Problem (α : Type) where
  residualBlocks : List (ResidualBlock α)
  parameterBlocks : List Int
  parameterized : List Int
  constantBlocks : List Int

/-- Declaration `Problem problem;`: the empty problem. -/
def Problem.empty {α : Type} : Problem α :=
  { residualBlocks := [], parameterBlocks := [], parameterized := [], constantBlocks := [] }

/-- Method `ProblemImpl::InternalAddParameterBlock`: a block that the problem holds already is not
added a second time. -/
def Problem.InternalAddParameterBlock (blocks : List Int) (values : Int) : List Int :=
  if values ∈ blocks then blocks else blocks ++ [values]

/-- Method `ceres::Problem::AddResidualBlock(cost, loss, x0, x1)`.  With the default options the call
aborts when the same pointer is passed twice (`Duplicate parameter blocks in a residual
parameter are not allowed`); otherwise it records the residual block and adds each parameter
block that the problem does not hold yet. -/
def Problem.AddResidualBlock {α : Type} (problem : Problem α)
    (costFunction : PoseGraph3DErrorTerm α) (lossFunction : Option Unit) (x0 x1 : Int) :
    Except Fatal (Problem α) :=
  if x0 = x1 then .error (.duplicateParameterBlocks x0)
  else
    let blocks := Problem.InternalAddParameterBlock problem.parameterBlocks x0
    let blocks := Problem.InternalAddParameterBlock blocks x1
    .ok { problem with
      residualBlocks := problem.residualBlocks ++
        [{ costFunction := costFunction, lossFunction := lossFunction,
           parameterBlocks := [x0, x1] }]
      parameterBlocks := blocks }

/-- Method `ceres::Problem::SetParameterization(values, parameterization)`: aborts when `values` is
not a parameter block of the problem; setting the same parameterization again changes nothing. -/
def Problem.SetParameterization {α : Type} (problem : Problem α) (values : Int) :
    Except Fatal (Problem α) :=
  if values ∈ problem.parameterBlocks then
    .ok { problem with
      parameterized :=
        if values ∈ problem.parameterized then problem.parameterized
        else problem.parameterized ++ [values] }
  else .error (.parameterBlockNotFound values)

/-- Method `ceres::Problem::SetParameterBlockConstant(values)`: aborts (`Parameter block not found
... You must add the parameter block to the problem before it can be set constant`) when
`values` is not a parameter block of the problem. -/
def Problem.SetParameterBlockConstant {α : Type} (problem : Problem α) (values : Int) :
    Except Fatal (Problem α) :=
  if values ∈ problem.parameterBlocks then
    .ok { problem with
      constantBlocks :=
        if values ∈ problem.constantBlocks then problem.constantBlocks
        else problem.constantBlocks ++ [values] }
  else .error (.parameterBlockNotFound values)

/-- The residual block that lines 60-62 of `main` build for a constraint: the error term made
from `t_be` and the factor of the information matrix, no loss function, attached to the begin
pose and the end pose. -/
def residualBlockOf {α : Type} [LinearOrderedField α] (sqrt : α → α) (c : Constraint α) :
    ResidualBlock α :=
  { costFunction := PoseGraph3DErrorTerm.create c.t_be (sqrtInformation sqrt c.information),
    lossFunction := none, parameterBlocks := [c.idBegin, c.idEnd] }

/-- The body of the loop over the constraints (lines 55-64 of `main`): the problem as it
stands when the round ends or aborts, and the fatal error if it aborted.  The storage of a
pose is `[R, p]`, so `R.data()` names the same parameter block as `data()`. -/
def constraintStep {α : Type} [LinearOrderedField α] (sqrt : α → α) (poses : MapOfPoses α)
    (problem : Problem α) (c : Constraint α) : Problem α × Option Fatal :=
  match poses.find c.idBegin with
  | none => (problem, some (.poseNotFound c.idBegin))
  | some itPoseBegin =>
    match poses.find c.idEnd with
    | none => (problem, some (.poseNotFound c.idEnd))
    | some itPoseEnd =>
      let sqrtInfo : Matrix6d α := sqrtInformation sqrt c.information
      let costFunction := PoseGraph3DErrorTerm.create c.t_be sqrtInfo
      match problem.AddResidualBlock costFunction none itPoseBegin.1 itPoseEnd.1 with
      | .error e => (problem, some e)
      | .ok problem1 =>
        match problem1.SetParameterization itPoseBegin.1 with
        | .error e => (problem1, some e)
        | .ok problem2 =>
          match problem2.SetParameterization itPoseEnd.1 with
          | .error e => (problem2, some e)
          | .ok problem3 => (problem3, none)

/-- The loop `for (auto& c : constraints)` (lines 54-65): the problem as it stands when the
loop ends or aborts, and the fatal error if it aborted. -/
def constraintLoop {α : Type} [LinearOrderedField α] (sqrt : α → α) (poses : MapOfPoses α) :
    List (Constraint α) → Problem α → Problem α × Option Fatal
  | [], problem => (problem, none)
  | c :: cs, problem =>
    match constraintStep sqrt poses problem c with
    | (problem2, some e) => (problem2, some e)
    | (problem2, none) => constraintLoop sqrt poses cs problem2

/-- The problem construction of `main` (lines 49-71): the constraint loop, then the first pose
of the map is set constant.  The result is the problem as it stands when `Solve` is reached or
the program aborts, and the fatal error if it aborted. -/
def main {α : Type} [LinearOrderedField α] (sqrt : α → α) (poses : MapOfPoses α)
    (constraints : List (Constraint α)) : Problem α × Option Fatal :=
  match constraintLoop sqrt poses constraints Problem.empty with
  | (problem, some e) => (problem, some e)
  | (problem, none) =>
    match poses.begin with
    | none => (problem, some .noPoses)
    | some itPoseStart =>
      match problem.SetParameterBlockConstant itPoseStart.1 with
      | .error e => (problem, some e)
      | .ok problem2 => (problem2, none)

/-! ### `savePose` -/

/-- Eigen's `operator<<` for the row vector `p.transpose()` with the default `IOFormat`: every
coefficient is right-aligned to the width of the longest one, and the coefficients are
separated by one blank. -/
def printRowVector {α : Type} (showDouble : α → List Char) (v : Fin 3 → α) : List Char :=
  let s0 := showDouble (v 0)
  let s1 := showDouble (v 1)
  let s2 := showDouble (v 2)
  let width := max (max s0.length s1.length) s2.length
  let pad := fun (s : List Char) => List.replicate (width - s.length) ' ' ++ s
  pad s0 ++ [' '] ++ pad s1 ++ [' '] ++ pad s2

/-- The text one round of the loop of `savePose` sends to the stream (lines 22-23). -/
def poseLine {α : Type} (showInt : Int → List Char) (showDouble : α → List Char)
    (p : Int × Pose α) : List Char :=
  showInt p.1 ++ [' '] ++ printRowVector showDouble p.2.p ++ [' '] ++ showDouble p.2.R.x
    ++ [' '] ++ showDouble p.2.R.y ++ [' '] ++ showDouble p.2.R.z ++ [' ']
    ++ showDouble p.2.R.w ++ ['\n']

/-- Function `savePose`: `canOpen` tells whether the stream opens.  The result is the return value and
the text written to the file (`none`: the file was not written). -/
def savePose {α : Type} (canOpen : Bool) (showInt : Int → List Char)
    (showDouble : α → List Char) (poses : MapOfPoses α) : Bool × Option (List Char) :=
  if !canOpen then (false, none)
  else
    (true, some (poses.entries.foldl (fun fs p => fs ++ poseLine showInt showDouble p) []))

/-- Split a text at every occurrence of the separator. -/
def splitAtChar (sep : Char) : List Char → List (List Char)
  | [] => [[]]
  | c :: cs =>
    if c = sep then [] :: splitAtChar sep cs
    else
      match splitAtChar sep cs with
      | [] => [[c]]
      | t :: ts => (c :: t) :: ts

/-- The lines of a text in which every line ends with a newline. -/
def textLines (s : List Char) : List (List Char) :=
  (splitAtChar '\n' s).dropLast

/-- The blank-separated fields of a line. -/
def lineFields (s : List Char) : List (List Char) :=
  (splitAtChar ' ' s).filter (fun t => !t.isEmpty)

end Sphere04_CeresSO3

namespace Sphere04_CeresSO3

/-! ### Concrete inputs for the closed statements -/

/-- The pose at the origin with the identity rotation. -/
def identityPose {α : Type} [Field α] : Pose α :=
  { R := { x := 0, y := 0, z := 0, w := 1 }, p := fun _ => 0 }

/-- A pose map with the single pose 0. -/
def onePose {α : Type} [Field α] : MapOfPoses α :=
  { entries := [(0, identityPose)], sorted := by simp }

/-- A pose map with the poses 0, 1 and 2. -/
def threePoses {α : Type} [Field α] : MapOfPoses α :=
  { entries := [(0, identityPose), (1, identityPose), (2, identityPose)],
    sorted := by simp }

/-- A constraint between two ids, with identity measurement and identity information. -/
def unitConstraint {α : Type} [Field α] (idBegin idEnd : Int) : Constraint α :=
  { idBegin := idBegin, idEnd := idEnd, t_be := identityPose, information := 1 }

end Sphere04_CeresSO3

namespace Eg06_UseG2O

/-! ## Properties of the curve-fitting example -/

/-- A counted loop that appends one element per round builds the mapped index list. -/
theorem foldl_range_append {β : Type} (f : Nat → β) (n : Nat) (init : List β) :
    (List.range n).foldl (fun acc i => acc ++ [f i]) init = init ++ (List.range n).map f := by
  induction n with
  | zero => simp
  | succ n ih => simp [List.range_succ, List.foldl_append, ih]

/-- The data-generation loop, in closed form. -/
theorem generateData_eq {α : Type} [Field α] (exp : α → α) (gaussRand : Nat → α → α → α)
    (a b c wSigma : α) (N : Nat) :
    generateData exp gaussRand a b c wSigma N =
      ((List.range N).map (fun i : Nat => (i : α) / 100),
       (List.range N).map (fun i : Nat =>
          exp (a * ((i : α) / 100) * ((i : α) / 100) + b * ((i : α) / 100) + c)
            + gaussRand i 0 wSigma)) := by
  unfold generateData
  induction N with
  | zero => simp
  | succ n ih => simp [List.range_succ, List.foldl_append, ih]

/-- A counted loop that adds one edge per round adds the mapped index list of edges. -/
theorem foldl_range_addEdge {α : Type} (f : Nat → CurveFittingEdge α) (n : Nat)
    (opt : SparseOptimizer α) :
    (List.range n).foldl (fun (o : SparseOptimizer α) (i : Nat) =>
        ({ o with edges := o.edges ++ [f i] } : SparseOptimizer α)) opt
      = { opt with edges := opt.edges ++ (List.range n).map f } := by
  induction n with
  | zero => simp
  | succ n ih =>
    rw [List.range_succ, List.foldl_append, ih]
    simp

/-- The edge loop in closed form: round `i` adds the edge with id `i` built from `xData[i]` and
`yData[i]`. -/
theorem addEdges_eq {α : Type} [Field α] (xData yData : List α) (wSigma : α) (vId : Int)
    (N : Nat) (opt : SparseOptimizer α) :
    addEdges xData yData wSigma vId N opt =
      { opt with edges := opt.edges ++ (List.range N).map (fun i : Nat =>
          ({ id := (i : Int), x_ := xData.getD i 0, measurement := yData.getD i 0,
             information := fun r s =>
               (1 : Matrix (Fin 1) (Fin 1) α) r s * 1 / (wSigma * wSigma),
             vertices := Function.update (fun _ => -1) 0 vId,
             error := fun _ => 0 } : CurveFittingEdge α)) } := by
  unfold addEdges
  exact foldl_range_addEdge _ N opt

/-- C2: `computeError` stores `y − exp(a·x² + b·x + c)` in the single residual component, where
`y` is the measurement, `x` the data abscissa and `(a, b, c)` the estimate of the one attached
vertex; nothing else of the edge changes; the residual has dimension 1, and it depends only on
the one parameter block `_vertices[0]`, whose dimension is 3. -/
theorem C2_computeError_residual {α : Type} [Field α] (exp : α → α)
    (vertexOf : Int → CurveFittingVertex α) (e : CurveFittingEdge α) :
    (e.computeError exp vertexOf).error =
        (fun _ => e.measurement -
          exp ((vertexOf (e.vertices 0)).estimate 0 * e.x_ ^ 2
            + (vertexOf (e.vertices 0)).estimate 1 * e.x_
            + (vertexOf (e.vertices 0)).estimate 2))
      ∧ (e.computeError exp vertexOf).measurement = e.measurement
      ∧ (e.computeError exp vertexOf).x_ = e.x_
      ∧ (e.computeError exp vertexOf).vertices = e.vertices
      ∧ (e.computeError exp vertexOf).information = e.information
      ∧ (e.computeError exp vertexOf).id = e.id
      ∧ CurveFittingEdge.Dimension = 1
      ∧ Fintype.card (Fin CurveFittingEdge.Dimension) = 1
      ∧ (∀ vertexOf2 : Int → CurveFittingVertex α,
          (vertexOf2 (e.vertices 0)).estimate = (vertexOf (e.vertices 0)).estimate →
            e.computeError exp vertexOf2 = e.computeError exp vertexOf)
      ∧ CurveFittingVertex.Dimension = 3
      ∧ CurveFittingVertex.EstimateSize = 3 := by
  refine ⟨?_, rfl, rfl, rfl, rfl, rfl, rfl, by simp [CurveFittingEdge.Dimension], ?_, rfl,
    by simp [CurveFittingVertex.EstimateSize]⟩
  · funext i
    have hi : i = 0 := Subsingleton.elim i 0
    subst hi
    simp only [CurveFittingEdge.computeError, Function.update_same]
    have hpoly : ∀ a b c x : α, a * x * x + b * x + c = a * x ^ 2 + b * x + c :=
      fun a b c x => by ring
    rw [hpoly]
  · intro vertexOf2 h
    simp only [CurveFittingEdge.computeError, h]

/-- C3: `oplusImpl` replaces the estimate `x` by `x + δ` componentwise, `δ` being the three
values read from the update pointer; the id is untouched; the tangent dimension (the vertex
template dimension) and the global dimension (the size of the estimate) are both 3. -/
theorem C3_oplusImpl_adds {α : Type} [Field α] (v : CurveFittingVertex α) (update : Nat → α) :
    (∀ i : Fin 3, (v.oplusImpl update).estimate i = v.estimate i + update i.val)
      ∧ (v.oplusImpl update).id = v.id
      ∧ CurveFittingVertex.Dimension = 3
      ∧ CurveFittingVertex.EstimateSize = 3
      ∧ CurveFittingVertex.Dimension = CurveFittingVertex.EstimateSize := by
  refine ⟨fun i => rfl, rfl, rfl, ?_, ?_⟩ <;>
    simp [CurveFittingVertex.EstimateSize, CurveFittingVertex.Dimension]

/-- C4 (as amended): on the machine numbers, for every estimate and each of its components
that is not NaN, the zero update (`+0.0` or `-0.0` in every component) applied by `oplusImpl`
leaves the component equal to what it was under `==`; the component is returned unchanged,
except that `-0.0` comes back as `+0.0` when the update is `+0.0`.  A NaN component stays NaN
and so compares unequal to itself.  The id is untouched. -/
theorem C4_oplusImpl_zero_double (v : CurveFittingVertex Double) (s : Bool) (i : Fin 3) :
    (v.estimate i ≠ Double.nan →
        Double.eq ((v.oplusImpl (fun _ => Double.zero s)).estimate i) (v.estimate i) = true)
      ∧ (v.estimate i ≠ Double.nan → (v.estimate i ≠ Double.zero true ∨ s = true) →
          (v.oplusImpl (fun _ => Double.zero s)).estimate i = v.estimate i)
      ∧ (v.estimate i = Double.zero true →
          (v.oplusImpl (fun _ => Double.zero false)).estimate i = Double.zero false)
      ∧ (v.estimate i = Double.nan →
          (v.oplusImpl (fun _ => Double.zero s)).estimate i = Double.nan
            ∧ Double.eq ((v.oplusImpl (fun _ => Double.zero s)).estimate i) (v.estimate i)
                = false)
      ∧ (v.oplusImpl (fun _ => Double.zero s)).id = v.id := by
  have hsum : (v.oplusImpl (fun _ => Double.zero s)).estimate i
      = Double.add (v.estimate i) (Double.zero s) := rfl
  rw [hsum]
  refine ⟨?_, ?_, ?_, ?_, rfl⟩
  · intro hnan
    cases hx : v.estimate i with
    | nan => exact absurd hx hnan
    | inf t => simp [Double.add, Double.eq]
    | zero t => simp [Double.add, Double.eq]
    | finite a => simp [Double.add, Double.eq]
  · intro hnan hz
    cases hx : v.estimate i with
    | nan => exact absurd hx hnan
    | inf t => simp [Double.add]
    | zero t =>
      rcases hz with hz | hz
      · cases t with
        | true => exact absurd hx hz
        | false => simp [Double.add]
      · subst hz
        simp [Double.add]
    | finite a => simp [Double.add]
  · intro hx
    have hsum2 : (v.oplusImpl (fun _ => Double.zero false)).estimate i
        = Double.add (v.estimate i) (Double.zero false) := rfl
    rw [hsum2, hx]
    rfl
  · intro hx
    rw [hx]
    exact ⟨rfl, rfl⟩

/-- C4 (an instance of the amended statement): the estimate `(1.5, -0.0, +∞)` under the update
`(+0.0, +0.0, +0.0)`; the first component comes back unchanged and the second compares equal. -/
theorem C4_oplusImpl_zero_double_witness :
    (mixedVertex.oplusImpl (fun _ => Double.zero false)).estimate 0 = Double.finite (3 / 2)
      ∧ Double.eq ((mixedVertex.oplusImpl (fun _ => Double.zero false)).estimate 1)
          (Double.zero true) = true :=
  ⟨(C4_oplusImpl_zero_double mixedVertex false 0).2.1 (by simp [mixedVertex])
      (Or.inl (by simp [mixedVertex])),
    (C4_oplusImpl_zero_double mixedVertex false 1).1 (by simp [mixedVertex])⟩

/-- C4 (counterexample to the claim as stated): for the estimate `(NaN, +0.0, +0.0)` the zero
update leaves the first component NaN, and `apply_update(x, 0) == x` is false there; for the
estimate `(-0.0, +0.0, +0.0)` the first component comes back as `+0.0`, a different value of
the type, so the estimate is not exactly what it was. -/
theorem C4_nan_estimate_not_equal :
    Double.eq ((nanVertex.oplusImpl (fun _ => Double.zero false)).estimate 0)
        (nanVertex.estimate 0) = false
      ∧ (negativeZeroVertex.oplusImpl (fun _ => Double.zero false)).estimate 0
          ≠ negativeZeroVertex.estimate 0 := by
  constructor
  · rfl
  · intro h
    have h2 : Double.add (Double.zero true) (Double.zero false) = Double.zero true := h
    simp [Double.add] at h2

/-- C8: the problem `main` builds.  There are 100 samples `x_i = i/100` and
`y_i = exp(1·x_i² + 2·x_i + 1) + w_i` with `w_i` the `i`-th draw `gaussRand(0, 1)`; one vertex,
with id 0 and estimate `(0,0,0)`; 100 edges, edge `i` having id `i`, data `x_i`, measurement
`y_i`, information the `1×1` identity, attached to vertex 0; and `optimize` is called with an
iteration budget of 100. -/
theorem C8_main_builds_scenario {α : Type} [Field α] (exp : α → α)
    (gaussRand : Nat → α → α → α) :
    (main exp gaussRand).1.1 = (List.range 100).map (fun i : Nat => (i : α) / 100)
      ∧ (main exp gaussRand).1.2 = (List.range 100).map (fun i : Nat =>
          exp (1 * ((i : α) / 100) ^ 2 + 2 * ((i : α) / 100) + 1) + gaussRand i 0 1)
      ∧ (main exp gaussRand).1.1.length = 100
      ∧ (main exp gaussRand).1.2.length = 100
      ∧ (main exp gaussRand).2.vertices = [{ id := 0, estimate := fun _ => 0 }]
      ∧ (main exp gaussRand).2.edges = (List.range 100).map (fun i : Nat =>
          ({ id := (i : Int), x_ := (i : α) / 100,
             measurement :=
               exp (1 * ((i : α) / 100) ^ 2 + 2 * ((i : α) / 100) + 1) + gaussRand i 0 1,
             information := 1,
             vertices := fun _ => 0,
             error := fun _ => 0 } : CurveFittingEdge α))
      ∧ (main exp gaussRand).2.edges.length = 100
      ∧ (main exp gaussRand).2.iterations = some 100 := by
  have hpoly : ∀ x : α, 1 * x * x + 2 * x + 1 = 1 * x ^ 2 + 2 * x + 1 := fun x => by ring
  have hx : (main exp gaussRand).1.1 = (List.range 100).map (fun i : Nat => (i : α) / 100) := by
    simp only [main, generateData_eq]
  have hy : (main exp gaussRand).1.2 = (List.range 100).map (fun i : Nat =>
      exp (1 * ((i : α) / 100) ^ 2 + 2 * ((i : α) / 100) + 1) + gaussRand i 0 1) := by
    simp only [main, generateData_eq]
    apply List.map_congr_left
    intro i _
    rw [hpoly ((i : α) / 100)]
  have he : (main exp gaussRand).2.edges = (List.range 100).map (fun i : Nat =>
      ({ id := (i : Int), x_ := (i : α) / 100,
         measurement :=
           exp (1 * ((i : α) / 100) ^ 2 + 2 * ((i : α) / 100) + 1) + gaussRand i 0 1,
         information := 1,
         vertices := fun _ => 0,
         error := fun _ => 0 } : CurveFittingEdge α)) := by
    simp only [main, addEdges_eq, generateData_eq, List.nil_append]
    apply List.map_congr_left
    intro i hi
    have hi' : i < 100 := List.mem_range.mp hi
    have h1 : ((List.range 100).map (fun i : Nat => (i : α) / 100)).getD i 0 = (i : α) / 100 := by
      rw [List.getD_eq_getElem _ _ (by simpa using hi')]
      simp
    have h2 : ((List.range 100).map (fun i : Nat =>
        exp (1 * ((i : α) / 100) * ((i : α) / 100) + 2 * ((i : α) / 100) + 1)
          + gaussRand i 0 1)).getD i 0
        = exp (1 * ((i : α) / 100) ^ 2 + 2 * ((i : α) / 100) + 1) + gaussRand i 0 1 := by
      rw [List.getD_eq_getElem _ _ (by simpa using hi')]
      simp only [List.getElem_map, List.getElem_range]
      rw [hpoly ((i : α) / 100)]
    have h3 : (fun r s : Fin 1 => (1 : Matrix (Fin 1) (Fin 1) α) r s * 1 / ((1 : α) * 1))
        = (1 : Matrix (Fin 1) (Fin 1) α) := by
      funext r s
      simp
    have h4 : Function.update (fun _ : Fin 1 => (-1 : Int)) 0 0 = fun _ => 0 := by
      funext r
      have hr : r = 0 := Subsingleton.elim r 0
      subst hr
      simp
    rw [h1, h2, h3, h4]
  refine ⟨hx, hy, ?_, ?_, ?_, he, ?_, ?_⟩
  · rw [hx]; simp
  · rw [hy]; simp
  · have h0 : (![0, 0, 0] : Fin 3 → α) = fun _ => 0 := by
      funext i
      fin_cases i <;> rfl
    simp only [main, addEdges_eq, List.nil_append, h0]
  · rw [he]; simp
  · simp [main]

end Eg06_UseG2O

namespace Sphere04_CeresSO3

/-! ## Properties of the pose-graph construction -/

/-- A list search by key finds an entry with that key when the key occurs. -/
theorem find_entry_of_mem_map_fst {β : Type} (id : Int) (es : List (Int × β))
    (h : id ∈ es.map Prod.fst) :
    ∃ e, es.find? (fun e => e.1 == id) = some e ∧ e.1 = id := by
  induction es with
  | nil => simp at h
  | cons e es ih =>
    by_cases he : e.1 = id
    · have hbeq : (e.1 == id) = true := by simp [he]
      exact ⟨e, by simp only [List.find?, hbeq], he⟩
    · have h2 : id ∈ es.map Prod.fst := by
        simp only [List.map_cons, List.mem_cons] at h
        rcases h with h | h
        · exact absurd h.symm he
        · exact h
      obtain ⟨e2, h3, h4⟩ := ih h2
      have hbeq : (e.1 == id) = false := by simp [he]
      exact ⟨e2, by simp only [List.find?, hbeq, h3], h4⟩

/-- The call `find` returns an entry exactly for the keys of the map, and the entry carries the key. -/
theorem find_of_mem_keys {α : Type} (poses : MapOfPoses α) (id : Int) (h : id ∈ poses.keys) :
    ∃ e, poses.find id = some e ∧ e.1 = id :=
  find_entry_of_mem_map_fst id poses.entries h

/-- The call `find` returns `end()` for an id that is not a key. -/
theorem find_of_not_mem_keys {α : Type} (poses : MapOfPoses α) (id : Int)
    (h : id ∉ poses.keys) : poses.find id = none := by
  unfold MapOfPoses.keys at h
  unfold MapOfPoses.find
  rw [List.find?_eq_none]
  intro e he
  simp only [beq_iff_eq]
  intro h2
  exact h (h2 ▸ List.mem_map_of_mem Prod.fst he)

/-- Membership after `InternalAddParameterBlock`. -/
theorem mem_InternalAddParameterBlock (blocks : List Int) (x b : Int) :
    b ∈ Problem.InternalAddParameterBlock blocks x ↔ b ∈ blocks ∨ b = x := by
  unfold Problem.InternalAddParameterBlock
  by_cases h : x ∈ blocks
  · simp only [h, if_true]
    constructor
    · exact fun hb => Or.inl hb
    · rintro (hb | hb)
      · exact hb
      · exact hb ▸ h
  · simp [h]

/-- One round of the loop aborts with the first failing check. -/
theorem constraintStep_bad {α : Type} [LinearOrderedField α] (sqrt : α → α)
    (poses : MapOfPoses α) (problem : Problem α) (c : Constraint α)
    (h : c.idBegin ∉ poses.keys ∨ c.idEnd ∉ poses.keys ∨ c.idBegin = c.idEnd) :
    constraintStep sqrt poses problem c = (problem, some
      (if c.idBegin ∉ poses.keys then Fatal.poseNotFound c.idBegin
       else if c.idEnd ∉ poses.keys then Fatal.poseNotFound c.idEnd
       else Fatal.duplicateParameterBlocks c.idBegin)) := by
  by_cases hb : c.idBegin ∈ poses.keys
  · obtain ⟨eb, hfb, hkb⟩ := find_of_mem_keys poses _ hb
    by_cases he : c.idEnd ∈ poses.keys
    · obtain ⟨ee, hfe, hke⟩ := find_of_mem_keys poses _ he
      have heq : c.idBegin = c.idEnd := by
        rcases h with h | h | h
        · exact absurd hb h
        · exact absurd he h
        · exact h
      have heq2 : eb.1 = ee.1 := by rw [hkb, hke, heq]
      simp [constraintStep, hfb, hfe, Problem.AddResidualBlock, heq2, hb, he, hke, heq]
    · simp [constraintStep, hfb, find_of_not_mem_keys poses _ he, hb, he]
  · simp [constraintStep, find_of_not_mem_keys poses _ hb, hb]

/-- One round of the loop on a constraint whose two ids are distinct keys of the map: the
residual block of the constraint is added, its two poses are parameter blocks afterwards, and no
block is set constant. -/
theorem constraintStep_good {α : Type} [LinearOrderedField α] (sqrt : α → α)
    (poses : MapOfPoses α) (problem : Problem α) (c : Constraint α)
    (hb : c.idBegin ∈ poses.keys) (he : c.idEnd ∈ poses.keys) (hne : c.idBegin ≠ c.idEnd) :
    ∃ problem2, constraintStep sqrt poses problem c = (problem2, none)
      ∧ problem2.residualBlocks = problem.residualBlocks ++
          [{ costFunction := PoseGraph3DErrorTerm.create c.t_be
               (sqrtInformation sqrt c.information),
             lossFunction := none, parameterBlocks := [c.idBegin, c.idEnd] }]
      ∧ (∀ b, b ∈ problem2.parameterBlocks ↔
          b ∈ problem.parameterBlocks ∨ b = c.idBegin ∨ b = c.idEnd)
      ∧ problem2.constantBlocks = problem.constantBlocks := by
  obtain ⟨eb, hfb, hkb⟩ := find_of_mem_keys poses _ hb
  obtain ⟨ee, hfe, hke⟩ := find_of_mem_keys poses _ he
  have hne2 : ¬ eb.1 = ee.1 := by rw [hkb, hke]; exact hne
  have hmem : ∀ b, b ∈ Problem.InternalAddParameterBlock
        (Problem.InternalAddParameterBlock problem.parameterBlocks c.idBegin) c.idEnd
      ↔ b ∈ problem.parameterBlocks ∨ b = c.idBegin ∨ b = c.idEnd := by
    intro b
    rw [mem_InternalAddParameterBlock, mem_InternalAddParameterBlock, or_assoc]
  have hbIn := (hmem c.idBegin).2 (Or.inr (Or.inl rfl))
  have heIn := (hmem c.idEnd).2 (Or.inr (Or.inr rfl))
  simp only [constraintStep, hfb, hfe, Problem.AddResidualBlock, hne2, hne, if_false, hkb, hke,
    Problem.SetParameterization, hbIn, heIn, if_true]
  exact ⟨_, rfl, rfl, hmem, rfl⟩

/-- A list with an element failing `P` splits at the first such element. -/
theorem first_failing {β : Type} (l : List β) (P : β → Prop)
    (h : ∃ x ∈ l, ¬ P x) :
    ∃ pre x post, l = pre ++ x :: post ∧ ¬ P x ∧ ∀ y ∈ pre, P y := by
  induction l with
  | nil => simp at h
  | cons a l ih =>
    by_cases ha : P a
    · have h2 : ∃ x ∈ l, ¬ P x := by
        obtain ⟨x, hx, hnx⟩ := h
        rcases List.mem_cons.mp hx with hxa | hxl
        · exact absurd (hxa ▸ ha) hnx
        · exact ⟨x, hxl, hnx⟩
      obtain ⟨pre, x, post, hsplit, hx, hpre⟩ := ih h2
      refine ⟨a :: pre, x, post, by rw [hsplit]; rfl, hx, ?_⟩
      intro y hy
      rcases List.mem_cons.mp hy with hya | hyl
      · exact hya ▸ ha
      · exact hpre y hyl
    · exact ⟨[], a, l, rfl, ha, by simp⟩

/-- Running the loop over a list that starts with constraints whose ids are distinct keys: the
loop gets past them, having added exactly their residual blocks and their poses. -/
theorem constraintLoop_append_good {α : Type} [LinearOrderedField α] (sqrt : α → α)
    (poses : MapOfPoses α) (pre : List (Constraint α)) (problem : Problem α)
    (h : ∀ c ∈ pre, c.idBegin ∈ poses.keys ∧ c.idEnd ∈ poses.keys ∧ c.idBegin ≠ c.idEnd) :
    ∃ problem2,
      problem2.residualBlocks = problem.residualBlocks ++ pre.map (residualBlockOf sqrt)
      ∧ (∀ b, b ∈ problem2.parameterBlocks ↔
          b ∈ problem.parameterBlocks ∨ ∃ c ∈ pre, b = c.idBegin ∨ b = c.idEnd)
      ∧ problem2.constantBlocks = problem.constantBlocks
      ∧ ∀ rest, constraintLoop sqrt poses (pre ++ rest) problem
          = constraintLoop sqrt poses rest problem2 := by
  induction pre generalizing problem with
  | nil => exact ⟨problem, by simp, by simp, rfl, fun _ => rfl⟩
  | cons c cs ih =>
    obtain ⟨hb, he, hne⟩ := h c (List.mem_cons_self _ _)
    obtain ⟨p1, hstep, hres1, hpar1, hconst1⟩ :=
      constraintStep_good sqrt poses problem c hb he hne
    obtain ⟨p2, hres2, hpar2, hconst2, hloop⟩ :=
      ih p1 (fun d hd => h d (List.mem_cons_of_mem _ hd))
    refine ⟨p2, ?_, ?_, ?_, ?_⟩
    · rw [hres2, hres1]
      simp [residualBlockOf]
    · intro b
      rw [hpar2, hpar1]
      simp only [List.mem_cons, exists_eq_or_imp, or_assoc]
    · rw [hconst2, hconst1]
    · intro rest
      rw [← hloop rest]
      show constraintLoop sqrt poses (c :: (cs ++ rest)) problem = _
      simp only [constraintLoop, hstep]

/-- C1 (as amended): the constraint loop of `main`, started on the empty problem, aborts if and
only if some constraint has an `idBegin` or an `idEnd` that is not a key of the pose map, or has
`idBegin = idEnd`.  It aborts at the first such constraint, with `idBegin` checked before
`idEnd` and both before the duplicate-block check of `AddResidualBlock`, and the problem then
holds exactly the residual blocks of the constraints before it.  When every constraint has two
distinct ids that are keys, the loop completes and has added one residual block per
constraint. -/
theorem C1_constraintLoop_fails_iff {α : Type} [LinearOrderedField α] (sqrt : α → α)
    (poses : MapOfPoses α) (constraints : List (Constraint α)) :
    ((constraintLoop sqrt poses constraints Problem.empty).2 ≠ none ↔
        ∃ c ∈ constraints,
          c.idBegin ∉ poses.keys ∨ c.idEnd ∉ poses.keys ∨ c.idBegin = c.idEnd)
      ∧ (∀ (pre : List (Constraint α)) (c : Constraint α) (post : List (Constraint α)),
          constraints = pre ++ c :: post →
          (∀ d ∈ pre, d.idBegin ∈ poses.keys ∧ d.idEnd ∈ poses.keys ∧ d.idBegin ≠ d.idEnd) →
          (c.idBegin ∉ poses.keys ∨ c.idEnd ∉ poses.keys ∨ c.idBegin = c.idEnd) →
          (constraintLoop sqrt poses constraints Problem.empty).2 = some
              (if c.idBegin ∉ poses.keys then Fatal.poseNotFound c.idBegin
               else if c.idEnd ∉ poses.keys then Fatal.poseNotFound c.idEnd
               else Fatal.duplicateParameterBlocks c.idBegin)
            ∧ (constraintLoop sqrt poses constraints Problem.empty).1.residualBlocks
                = pre.map (residualBlockOf sqrt))
      ∧ ((∀ c ∈ constraints,
            c.idBegin ∈ poses.keys ∧ c.idEnd ∈ poses.keys ∧ c.idBegin ≠ c.idEnd) →
          (constraintLoop sqrt poses constraints Problem.empty).2 = none
            ∧ (constraintLoop sqrt poses constraints Problem.empty).1.residualBlocks
                = constraints.map (residualBlockOf sqrt)) := by
  have hB : ∀ (pre : List (Constraint α)) (c : Constraint α) (post : List (Constraint α)),
      constraints = pre ++ c :: post →
      (∀ d ∈ pre, d.idBegin ∈ poses.keys ∧ d.idEnd ∈ poses.keys ∧ d.idBegin ≠ d.idEnd) →
      (c.idBegin ∉ poses.keys ∨ c.idEnd ∉ poses.keys ∨ c.idBegin = c.idEnd) →
      (constraintLoop sqrt poses constraints Problem.empty).2 = some
          (if c.idBegin ∉ poses.keys then Fatal.poseNotFound c.idBegin
           else if c.idEnd ∉ poses.keys then Fatal.poseNotFound c.idEnd
           else Fatal.duplicateParameterBlocks c.idBegin)
        ∧ (constraintLoop sqrt poses constraints Problem.empty).1.residualBlocks
            = pre.map (residualBlockOf sqrt) := by
    intro pre c post hsplit hpre hbad
    obtain ⟨p2, hres, _, _, hloop⟩ :=
      constraintLoop_append_good sqrt poses pre Problem.empty hpre
    rw [hsplit, hloop (c :: post)]
    simp only [constraintLoop, constraintStep_bad sqrt poses p2 c hbad]
    refine ⟨trivial, ?_⟩
    rw [hres]
    simp [Problem.empty]
  have hC : (∀ c ∈ constraints,
        c.idBegin ∈ poses.keys ∧ c.idEnd ∈ poses.keys ∧ c.idBegin ≠ c.idEnd) →
      (constraintLoop sqrt poses constraints Problem.empty).2 = none
        ∧ (constraintLoop sqrt poses constraints Problem.empty).1.residualBlocks
            = constraints.map (residualBlockOf sqrt) := by
    intro hall
    obtain ⟨p2, hres, _, _, hloop⟩ :=
      constraintLoop_append_good sqrt poses constraints Problem.empty hall
    have h := hloop []
    rw [List.append_nil] at h
    rw [h]
    simp only [constraintLoop]
    refine ⟨trivial, ?_⟩
    rw [hres]
    simp [Problem.empty]
  refine ⟨⟨?_, ?_⟩, hB, hC⟩
  · intro hfail
    by_contra hnone
    apply hfail
    refine (hC ?_).1
    intro c hc
    by_contra hcon
    apply hnone
    refine ⟨c, hc, ?_⟩
    by_cases h1 : c.idBegin ∈ poses.keys
    · by_cases h2 : c.idEnd ∈ poses.keys
      · by_cases h3 : c.idBegin = c.idEnd
        · exact Or.inr (Or.inr h3)
        · exact absurd ⟨h1, h2, h3⟩ hcon
      · exact Or.inr (Or.inl h2)
    · exact Or.inl h1
  · rintro ⟨c, hc, hbad⟩
    have hex : ∃ c ∈ constraints,
        ¬ (c.idBegin ∈ poses.keys ∧ c.idEnd ∈ poses.keys ∧ c.idBegin ≠ c.idEnd) := by
      refine ⟨c, hc, ?_⟩
      rintro ⟨h1, h2, h3⟩
      rcases hbad with h | h | h
      · exact h h1
      · exact h h2
      · exact h3 h
    obtain ⟨pre, d, post, hsplit, hd, hpre⟩ := first_failing constraints _ hex
    have hbadd : d.idBegin ∉ poses.keys ∨ d.idEnd ∉ poses.keys ∨ d.idBegin = d.idEnd := by
      by_cases h1 : d.idBegin ∈ poses.keys
      · by_cases h2 : d.idEnd ∈ poses.keys
        · by_cases h3 : d.idBegin = d.idEnd
          · exact Or.inr (Or.inr h3)
          · exact absurd ⟨h1, h2, h3⟩ hd
        · exact Or.inr (Or.inl h2)
      · exact Or.inl h1
    rw [(hB pre d post hsplit hpre hbadd).1]
    simp

/-- C1 (an instance of the amended statement): with the poses 0, 1, 2 and the constraints 0-1,
1-5, 1-2 the loop aborts at the second constraint, whose end id 5 is no key, and the problem
holds the residual block of the first constraint only. -/
theorem C1_constraintLoop_fails_iff_witness :
    (constraintLoop Real.sqrt (threePoses : MapOfPoses ℝ)
        [unitConstraint 0 1, unitConstraint 1 5, unitConstraint 1 2] Problem.empty).2
        = some (Fatal.poseNotFound 5)
      ∧ (constraintLoop Real.sqrt (threePoses : MapOfPoses ℝ)
        [unitConstraint 0 1, unitConstraint 1 5, unitConstraint 1 2] Problem.empty).1.residualBlocks
        = [residualBlockOf Real.sqrt (unitConstraint 0 1)] := by
  have h := (C1_constraintLoop_fails_iff Real.sqrt (threePoses : MapOfPoses ℝ)
    [unitConstraint 0 1, unitConstraint 1 5, unitConstraint 1 2]).2.1
    [unitConstraint 0 1] (unitConstraint 1 5) [unitConstraint 1 2] rfl
    (by simp [MapOfPoses.keys, threePoses, unitConstraint])
    (by simp [MapOfPoses.keys, threePoses, unitConstraint])
  refine ⟨?_, h.2⟩
  rw [h.1]
  simp [MapOfPoses.keys, threePoses, unitConstraint]

/-- C1 (counterexample to the claim as stated): for the pose map with the single pose 0 and the
one constraint from 0 to 0, every id of the constraint is a key of the map, and yet the loop
aborts, inside `AddResidualBlock`. -/
theorem C1_selfloop_aborts :
    (∀ c ∈ [(unitConstraint 0 0 : Constraint ℝ)],
        c.idBegin ∈ (onePose : MapOfPoses ℝ).keys ∧ c.idEnd ∈ (onePose : MapOfPoses ℝ).keys)
      ∧ (constraintLoop Real.sqrt onePose [(unitConstraint 0 0 : Constraint ℝ)]
          Problem.empty).2 = some (Fatal.duplicateParameterBlocks 0)
      ∧ ¬ ((constraintLoop Real.sqrt onePose [(unitConstraint 0 0 : Constraint ℝ)]
            Problem.empty).2 ≠ none ↔
          ∃ c ∈ [(unitConstraint 0 0 : Constraint ℝ)],
            c.idBegin ∉ (onePose : MapOfPoses ℝ).keys
              ∨ c.idEnd ∉ (onePose : MapOfPoses ℝ).keys) := by
  have h1 : (constraintLoop Real.sqrt onePose [(unitConstraint 0 0 : Constraint ℝ)]
      Problem.empty).2 = some (Fatal.duplicateParameterBlocks 0) := by
    simp [constraintLoop, constraintStep, MapOfPoses.find, onePose, unitConstraint,
      Problem.AddResidualBlock]
  refine ⟨?_, h1, ?_⟩
  · simp [MapOfPoses.keys, onePose, unitConstraint]
  · rw [h1]
    simp [MapOfPoses.keys, onePose, unitConstraint]

/-- The first entry of a pose map carries the smallest id. -/
theorem begin_le_keys {α : Type} (poses : MapOfPoses α) (first : Int × Pose α)
    (h : poses.begin = some first) : ∀ k ∈ poses.keys, first.1 ≤ k := by
  have hs := poses.sorted
  unfold MapOfPoses.begin at h
  unfold MapOfPoses.keys
  cases hent : poses.entries with
  | nil => simp [hent] at h
  | cons e es =>
    rw [hent] at h hs
    simp only [List.head?_cons, Option.some.injEq] at h
    subst h
    intro k hk
    simp only [List.map_cons, List.mem_cons] at hk
    rcases hk with hk | hk
    · exact le_of_eq hk.symm
    · simp only [List.map_cons, List.pairwise_cons] at hs
      exact le_of_lt (hs.1 k hk)

/-- C6 (as amended): for a non-empty pose map and a constraint list whose constraints each join
two distinct ids of the map, and in which the id of the first entry of the map is the begin or
the end of some constraint, the construction in `main` completes and holds exactly one pose
constant, the first entry of the map, which has the smallest id.  For an empty pose map the
construction aborts; with no constraint at all it aborts at the check `There are no poses`. -/
theorem C6_first_pose_constant {α : Type} [LinearOrderedField α] (sqrt : α → α)
    (poses : MapOfPoses α) (constraints : List (Constraint α)) :
    (∀ first : Int × Pose α, poses.begin = some first →
        (∀ c ∈ constraints,
          c.idBegin ∈ poses.keys ∧ c.idEnd ∈ poses.keys ∧ c.idBegin ≠ c.idEnd) →
        (∃ c ∈ constraints, first.1 = c.idBegin ∨ first.1 = c.idEnd) →
        (main sqrt poses constraints).2 = none
          ∧ (main sqrt poses constraints).1.constantBlocks = [first.1]
          ∧ first.1 ∈ (main sqrt poses constraints).1.parameterBlocks
          ∧ (main sqrt poses constraints).1.residualBlocks
              = constraints.map (residualBlockOf sqrt)
          ∧ ∀ k ∈ poses.keys, first.1 ≤ k)
      ∧ (poses.entries = [] → (main sqrt poses constraints).2 ≠ none)
      ∧ (poses.entries = [] → constraints = [] →
          (main sqrt poses constraints).2 = some Fatal.noPoses) := by
  refine ⟨?_, ?_, ?_⟩
  · intro first hfirst hall href
    obtain ⟨p2, hres, hpar, hconst, hloop⟩ :=
      constraintLoop_append_good sqrt poses constraints Problem.empty hall
    have h := hloop []
    rw [List.append_nil] at h
    have hloop2 : constraintLoop sqrt poses constraints Problem.empty = (p2, none) := by
      rw [h]; rfl
    have hmem : first.1 ∈ p2.parameterBlocks := by
      rw [hpar]
      exact Or.inr href
    have hc0 : p2.constantBlocks = [] := by rw [hconst]; rfl
    have hmain : main sqrt poses constraints =
        ({ p2 with constantBlocks := [first.1] }, none) := by
      simp only [main, hloop2, hfirst, Problem.SetParameterBlockConstant, hmem, if_true, hc0]
      simp
    rw [hmain]
    refine ⟨rfl, rfl, hmem, ?_, begin_le_keys poses first hfirst⟩
    show p2.residualBlocks = _
    rw [hres]
    simp [Problem.empty]
  · intro hempty
    have hkeys : poses.keys = [] := by simp [MapOfPoses.keys, hempty]
    have hbegin : poses.begin = none := by simp [MapOfPoses.begin, hempty]
    cases constraints with
    | nil => simp [main, constraintLoop, hbegin]
    | cons c cs =>
      have hbad : c.idBegin ∉ poses.keys ∨ c.idEnd ∉ poses.keys ∨ c.idBegin = c.idEnd :=
        Or.inl (by simp [hkeys])
      simp [main, constraintLoop, constraintStep_bad sqrt poses _ c hbad]
  · intro hempty hcs
    have hbegin : poses.begin = none := by simp [MapOfPoses.begin, hempty]
    simp [main, hcs, constraintLoop, hbegin]

/-- C6 (an instance of the amended statement): the poses 0, 1, 2 with the constraints 0-1 and
1-2; pose 0 is held constant. -/
theorem C6_first_pose_constant_witness :
    (main Real.sqrt (threePoses : MapOfPoses ℝ)
        [unitConstraint 0 1, unitConstraint 1 2]).2 = none
      ∧ (main Real.sqrt (threePoses : MapOfPoses ℝ)
        [unitConstraint 0 1, unitConstraint 1 2]).1.constantBlocks = [0] := by
  have h := (C6_first_pose_constant Real.sqrt (threePoses : MapOfPoses ℝ)
    [unitConstraint 0 1, unitConstraint 1 2]).1 (0, identityPose) rfl
    (by simp [MapOfPoses.keys, threePoses, unitConstraint])
    (by simp [unitConstraint])
  exact ⟨h.1, h.2.1⟩

/-- C6 (counterexamples to the claim as stated): two inputs with a non-empty pose map in which
every constraint id occurs, on which the construction aborts and holds no pose constant.  With
the single pose 0 and no constraint, pose 0 is no parameter block when it is to be set
constant.  With the single pose 0 and the constraint from 0 to 0, `AddResidualBlock` rejects
the duplicate parameter block. -/
theorem C6_construction_aborts :
    ((onePose : MapOfPoses ℝ).entries ≠ []
        ∧ (∀ c ∈ ([] : List (Constraint ℝ)),
            c.idBegin ∈ (onePose : MapOfPoses ℝ).keys
              ∧ c.idEnd ∈ (onePose : MapOfPoses ℝ).keys)
        ∧ (main Real.sqrt (onePose : MapOfPoses ℝ) []).2
            = some (Fatal.parameterBlockNotFound 0)
        ∧ (main Real.sqrt (onePose : MapOfPoses ℝ) []).1.constantBlocks = [])
      ∧ ((∀ c ∈ [(unitConstraint 0 0 : Constraint ℝ)],
            c.idBegin ∈ (onePose : MapOfPoses ℝ).keys
              ∧ c.idEnd ∈ (onePose : MapOfPoses ℝ).keys)
        ∧ (main Real.sqrt (onePose : MapOfPoses ℝ) [unitConstraint 0 0]).2
            = some (Fatal.duplicateParameterBlocks 0)
        ∧ (main Real.sqrt (onePose : MapOfPoses ℝ) [unitConstraint 0 0]).1.constantBlocks
            = []) := by
  refine ⟨⟨by simp [onePose], by simp, ?_, ?_⟩,
    ⟨by simp [MapOfPoses.keys, onePose, unitConstraint], ?_, ?_⟩⟩
  · simp [main, constraintLoop, MapOfPoses.begin, onePose, Problem.SetParameterBlockConstant,
      Problem.empty]
  · simp [main, constraintLoop, MapOfPoses.begin, onePose, Problem.SetParameterBlockConstant,
      Problem.empty]
  · simp [main, constraintLoop, constraintStep, MapOfPoses.find, onePose, unitConstraint,
      Problem.AddResidualBlock]
  · simp [main, constraintLoop, constraintStep, MapOfPoses.find, onePose, unitConstraint,
      Problem.AddResidualBlock, Problem.empty]

/-- C10 (the failing input evaluated): for the poses 0, 1, 2 and the single constraint from 1
to 2, every constraint id is a key of the map and the residual block of the constraint is added,
but the first pose of the map, pose 0, is not a parameter block of the problem, and
`SetParameterBlockConstant` aborts. -/
theorem C10_first_pose_not_a_block :
    (∀ c ∈ [(unitConstraint 1 2 : Constraint ℝ)],
        c.idBegin ∈ (threePoses : MapOfPoses ℝ).keys
          ∧ c.idEnd ∈ (threePoses : MapOfPoses ℝ).keys)
      ∧ (threePoses : MapOfPoses ℝ).begin = some (0, identityPose)
      ∧ (constraintLoop Real.sqrt (threePoses : MapOfPoses ℝ) [unitConstraint 1 2]
          Problem.empty).2 = none
      ∧ (constraintLoop Real.sqrt (threePoses : MapOfPoses ℝ) [unitConstraint 1 2]
          Problem.empty).1.parameterBlocks = [1, 2]
      ∧ (main Real.sqrt (threePoses : MapOfPoses ℝ) [unitConstraint 1 2]).2
          = some (Fatal.parameterBlockNotFound 0) := by
  have hloop : constraintLoop Real.sqrt (threePoses : MapOfPoses ℝ) [unitConstraint 1 2]
      Problem.empty =
      ({ residualBlocks := [residualBlockOf Real.sqrt (unitConstraint 1 2)],
         parameterBlocks := [1, 2], parameterized := [1, 2], constantBlocks := [] }, none) := by
    simp [constraintLoop, constraintStep, MapOfPoses.find, threePoses, unitConstraint,
      Problem.AddResidualBlock, Problem.SetParameterization, Problem.empty,
      Problem.InternalAddParameterBlock, residualBlockOf, sqrtInformation]
  refine ⟨by simp [MapOfPoses.keys, threePoses, unitConstraint], rfl, ?_, ?_, ?_⟩
  · rw [hloop]
  · rw [hloop]
  · simp only [main, hloop]
    simp [MapOfPoses.begin, threePoses, Problem.SetParameterBlockConstant]

end Sphere04_CeresSO3

namespace Sphere04_CeresSO3

/-! ## Properties of `savePose` -/

/-- Splitting never yields the empty list of pieces. -/
theorem splitAtChar_ne_nil (sep : Char) (s : List Char) : splitAtChar sep s ≠ [] := by
  cases s with
  | nil => simp [splitAtChar]
  | cons c cs =>
    unfold splitAtChar
    by_cases h : c = sep
    · simp [h]
    · simp only [h, if_false]
      cases splitAtChar sep cs <;> simp

/-- A piece free of the separator, followed by the separator, is split off as it is. -/
theorem splitAtChar_append_sep (sep : Char) (a rest : List Char) (h : sep ∉ a) :
    splitAtChar sep (a ++ sep :: rest) = a :: splitAtChar sep rest := by
  induction a with
  | nil => simp [splitAtChar]
  | cons c a ih =>
    have hc : ¬ c = sep := fun hc => h (hc ▸ List.mem_cons_self _ _)
    have ha : sep ∉ a := fun ha => h (List.mem_cons_of_mem _ ha)
    rw [List.cons_append, splitAtChar]
    simp only [hc, if_false, ih ha]

/-- A text free of the separator is a single piece. -/
theorem splitAtChar_of_not_mem (sep : Char) (a : List Char) (h : sep ∉ a) :
    splitAtChar sep a = [a] := by
  induction a with
  | nil => simp [splitAtChar]
  | cons c a ih =>
    have hc : ¬ c = sep := fun hc => h (hc ▸ List.mem_cons_self _ _)
    have ha : sep ∉ a := fun ha => h (List.mem_cons_of_mem _ ha)
    rw [splitAtChar]
    simp only [hc, if_false, ih ha]

/-- The fields of a line that starts with a field followed by a blank. -/
theorem lineFields_field_blank (a rest : List Char) (hne : a ≠ []) (h : ' ' ∉ a) :
    lineFields (a ++ ' ' :: rest) = a :: lineFields rest := by
  unfold lineFields
  rw [splitAtChar_append_sep ' ' a rest h]
  cases a with
  | nil => exact absurd rfl hne
  | cons c a => simp [List.filter]

/-- Leading blanks carry no field. -/
theorem lineFields_blanks (k : Nat) (rest : List Char) :
    lineFields (List.replicate k ' ' ++ rest) = lineFields rest := by
  induction k with
  | zero => simp
  | succ k ih =>
    rw [List.replicate_succ, List.cons_append]
    unfold lineFields at ih ⊢
    rw [splitAtChar]
    simp [List.filter, ih]

/-- The fields of a line that is one field. -/
theorem lineFields_single (a : List Char) (hne : a ≠ []) (h : ' ' ∉ a) :
    lineFields a = [a] := by
  unfold lineFields
  rw [splitAtChar_of_not_mem ' ' a h]
  cases a with
  | nil => exact absurd rfl hne
  | cons c a => simp [List.filter]

/-- The stream after the loop of `savePose` is the concatenation of the lines. -/
theorem foldl_poseLine {α : Type} (showInt : Int → List Char) (showDouble : α → List Char)
    (es : List (Int × Pose α)) (init : List Char) :
    es.foldl (fun fs p => fs ++ poseLine showInt showDouble p) init
      = init ++ (es.map (poseLine showInt showDouble)).flatten := by
  induction es generalizing init with
  | nil => simp
  | cons e es ih => simp [ih, List.append_assoc]

/-- The lines of a text made of newline-terminated pieces without inner newline. -/
theorem textLines_join (bodies : List (List Char)) (h : ∀ b ∈ bodies, '\n' ∉ b) :
    textLines ((bodies.map (fun b => b ++ ['\n'])).flatten) = bodies := by
  unfold textLines
  induction bodies with
  | nil => simp [splitAtChar]
  | cons b bs ih =>
    have hb : '\n' ∉ b := h b (List.mem_cons_self _ _)
    have hbs : ∀ x ∈ bs, '\n' ∉ x := fun x hx => h x (List.mem_cons_of_mem _ hx)
    simp only [List.map_cons, List.flatten_cons, List.append_assoc, List.singleton_append]
    rw [splitAtChar_append_sep '\n' b _ hb]
    rw [List.dropLast_cons_of_ne_nil (splitAtChar_ne_nil _ _), ih hbs]

/-- The fields of the text of a row vector are its three coefficients. -/
theorem lineFields_printRowVector {α : Type} (showDouble : α → List Char) (v : Fin 3 → α)
    (rest : List Char)
    (hDouble : ∀ x, showDouble x ≠ [] ∧ ' ' ∉ showDouble x ∧ '\n' ∉ showDouble x) :
    lineFields (printRowVector showDouble v ++ ' ' :: rest)
      = showDouble (v 0) :: showDouble (v 1) :: showDouble (v 2) :: lineFields rest := by
  simp only [printRowVector, List.append_assoc, List.singleton_append, List.cons_append,
    List.nil_append]
  rw [lineFields_blanks, lineFields_field_blank _ _ (hDouble _).1 (hDouble _).2.1,
    lineFields_blanks, lineFields_field_blank _ _ (hDouble _).1 (hDouble _).2.1,
    lineFields_blanks, lineFields_field_blank _ _ (hDouble _).1 (hDouble _).2.1]

/-- The text of a row vector holds no newline. -/
theorem newline_not_mem_printRowVector {α : Type} (showDouble : α → List Char)
    (v : Fin 3 → α)
    (hDouble : ∀ x, showDouble x ≠ [] ∧ ' ' ∉ showDouble x ∧ '\n' ∉ showDouble x) :
    '\n' ∉ printRowVector showDouble v := by
  have h0 := (hDouble (v 0)).2.2
  have h1 := (hDouble (v 1)).2.2
  have h2 := (hDouble (v 2)).2.2
  simp only [printRowVector, List.mem_append, List.mem_replicate, List.mem_singleton, not_or]
  refine ⟨⟨⟨⟨⟨?_, h0⟩, by decide⟩, ⟨?_, h1⟩⟩, by decide⟩, ⟨?_, h2⟩⟩ <;>
    exact fun h => absurd h.2 (by decide)

/-- C7: when the stream opens, `savePose` returns true and writes one newline-terminated line
per pose, in the ascending id order of the map; the blank-separated fields of each line are,
in this order, the id, the three position components and the quaternion components x, y, z, w.
When the stream does not open it returns false and nothing is written.  (The formatters of the
stream are arbitrary, as long as a formatted number is not empty and holds neither a blank nor a
newline.) -/
theorem C7_savePose_lines {α : Type} (showInt : Int → List Char)
    (showDouble : α → List Char) (poses : MapOfPoses α)
    (hInt : ∀ i, showInt i ≠ [] ∧ ' ' ∉ showInt i ∧ '\n' ∉ showInt i)
    (hDouble : ∀ x, showDouble x ≠ [] ∧ ' ' ∉ showDouble x ∧ '\n' ∉ showDouble x) :
    (∃ text, savePose true showInt showDouble poses = (true, some text)
        ∧ (textLines text).length = poses.entries.length
        ∧ (textLines text).map lineFields = poses.entries.map (fun e =>
            [showInt e.1, showDouble (e.2.p 0), showDouble (e.2.p 1), showDouble (e.2.p 2),
             showDouble e.2.R.x, showDouble e.2.R.y, showDouble e.2.R.z, showDouble e.2.R.w])
        ∧ (poses.entries.map Prod.fst).Pairwise (fun a b => a < b))
      ∧ savePose false showInt showDouble poses = (false, none) := by
  refine ⟨?_, rfl⟩
  have hbody : ∀ e : Int × Pose α, poseLine showInt showDouble e =
      (showInt e.1 ++ ' ' :: (printRowVector showDouble e.2.p ++ ' ' :: (showDouble e.2.R.x
        ++ ' ' :: (showDouble e.2.R.y ++ ' ' :: (showDouble e.2.R.z ++ ' ' ::
          showDouble e.2.R.w))))) ++ ['\n'] := by
    intro e
    simp only [poseLine, List.append_assoc, List.singleton_append, List.cons_append,
      List.nil_append]
  have hnl : ∀ e : Int × Pose α, '\n' ∉
      (showInt e.1 ++ ' ' :: (printRowVector showDouble e.2.p ++ ' ' :: (showDouble e.2.R.x
        ++ ' ' :: (showDouble e.2.R.y ++ ' ' :: (showDouble e.2.R.z ++ ' ' ::
          showDouble e.2.R.w))))) := by
    intro e
    have hp := newline_not_mem_printRowVector showDouble e.2.p hDouble
    have hi := (hInt e.1).2.2
    have hx := (hDouble e.2.R.x).2.2
    have hy := (hDouble e.2.R.y).2.2
    have hz := (hDouble e.2.R.z).2.2
    have hw := (hDouble e.2.R.w).2.2
    simp only [List.mem_append, List.mem_cons, not_or]
    exact ⟨hi, by decide, hp, by decide, hx, by decide, hy, by decide, hz, by decide, hw⟩
  have hfields : ∀ e : Int × Pose α, lineFields
      (showInt e.1 ++ ' ' :: (printRowVector showDouble e.2.p ++ ' ' :: (showDouble e.2.R.x
        ++ ' ' :: (showDouble e.2.R.y ++ ' ' :: (showDouble e.2.R.z ++ ' ' ::
          showDouble e.2.R.w))))) =
      [showInt e.1, showDouble (e.2.p 0), showDouble (e.2.p 1), showDouble (e.2.p 2),
       showDouble e.2.R.x, showDouble e.2.R.y, showDouble e.2.R.z, showDouble e.2.R.w] := by
    intro e
    rw [lineFields_field_blank _ _ (hInt _).1 (hInt _).2.1,
      lineFields_printRowVector showDouble _ _ hDouble,
      lineFields_field_blank _ _ (hDouble _).1 (hDouble _).2.1,
      lineFields_field_blank _ _ (hDouble _).1 (hDouble _).2.1,
      lineFields_field_blank _ _ (hDouble _).1 (hDouble _).2.1,
      lineFields_single _ (hDouble _).1 (hDouble _).2.1]
  have htext : poses.entries.foldl (fun fs p => fs ++ poseLine showInt showDouble p) []
      = ((poses.entries.map (fun e : Int × Pose α =>
          showInt e.1 ++ ' ' :: (printRowVector showDouble e.2.p ++ ' ' :: (showDouble e.2.R.x
            ++ ' ' :: (showDouble e.2.R.y ++ ' ' :: (showDouble e.2.R.z ++ ' ' ::
              showDouble e.2.R.w)))))).map (fun b => b ++ ['\n'])).flatten := by
    rw [foldl_poseLine, List.nil_append, List.map_map]
    congr 1
    apply List.map_congr_left
    intro e _
    exact hbody e
  have hlines := textLines_join (poses.entries.map (fun e : Int × Pose α =>
      showInt e.1 ++ ' ' :: (printRowVector showDouble e.2.p ++ ' ' :: (showDouble e.2.R.x
        ++ ' ' :: (showDouble e.2.R.y ++ ' ' :: (showDouble e.2.R.z ++ ' ' ::
          showDouble e.2.R.w)))))) (by
    intro b hb
    obtain ⟨e, _, rfl⟩ := List.mem_map.mp hb
    exact hnl e)
  refine ⟨_, by simp only [savePose]; rfl, ?_, ?_, poses.sorted⟩
  · rw [htext, hlines, List.length_map]
  · rw [htext, hlines, List.map_map]
    apply List.map_congr_left
    intro e _
    exact hfields e

/-- C7 (an instance): two poses written with one-character formatters. -/
theorem C7_savePose_lines_witness :
    (∀ i : Int, (fun _ : Int => ['7']) i ≠ [] ∧ ' ' ∉ (fun _ : Int => ['7']) i
        ∧ '\n' ∉ (fun _ : Int => ['7']) i)
      ∧ ∃ text, savePose true (fun _ : Int => ['7']) (fun _ : ℚ => ['1'])
          (threePoses : MapOfPoses ℚ) = (true, some text)
        ∧ (textLines text).length = 3 :=
  ⟨fun _ => by simp,
    let ⟨text, h1, h2, _⟩ := (C7_savePose_lines (fun _ : Int => ['7']) (fun _ : ℚ => ['1'])
      (threePoses : MapOfPoses ℚ) (fun _ => by simp) (fun _ => by simp)).1
    ⟨text, h1, h2⟩⟩

end Sphere04_CeresSO3

namespace Sphere04_CeresSO3

/-! ## Properties of the factor of the information matrix -/

end Sphere04_CeresSO3

namespace Sphere04_CeresSO3

/-! ## The factorisation finds a factor that the number system holds -/

end Sphere04_CeresSO3

namespace Sphere04_CeresSO3

/-! ## A coupled information matrix and its factor -/

end Sphere04_CeresSO3

namespace Sphere04_CeresSO3

end Sphere04_CeresSO3

namespace Sphere04_CeresSO3

/-! ## The cost contribution of a residual block -/

end Sphere04_CeresSO3

